import Mathlib

/-!
Shallow embedding of the `log-update` terminal live-region renderer
(the `createStandard` and `createIncremental` factories of the source).

JavaScript strings are modelled as lists of characters (`Str`).  The output
stream is modelled as the ordered list of `stream.write` calls; each call is
the list of escape-sequence tokens and text pieces that were concatenated
into that single write.  The named escape-sequence constants of the
`ansi-escapes` dependency are modelled as opaque `Token` constructors.
`cliCursor.hide` / `cliCursor.show` are not stream writes; they only flip the
`hasHiddenCursor` field of the state.
-/

/-- Model of a JavaScript string: a finite sequence of characters. -/
abbrev Str := List Char

/-- Model of `str.split('\n')`: splits a string on every newline character,
keeping empty segments, so the result always has at least one element. -/
def splitNl : Str → List Str
  | [] => [[]]
  | c :: cs =>
    match splitNl cs with
    | [] => []
    | l :: ls => if c = '\n' then [] :: l :: ls else (c :: l) :: ls

/-- Model of `'\n'.intercalate`: joins line segments with newline characters,
the inverse of `splitNl`. -/
def joinNl : List Str → Str
  | [] => []
  | [l] => l
  | l :: ls => l ++ '\n' :: joinNl ls

/-- The escape-sequence primitives used by the renderer, plus plain text.
Each constructor models one named constant (or constant family) of the
`ansi-escapes` dependency. -/
inductive Token where
  | text (s : Str)
  | eraseLines (n : Nat)
  | eraseLine
  | cursorUp (n : Int)
  | cursorTo (n : Nat)
  | cursorNextLine
  | clearTerminal
deriving Repr, DecidableEq

/-- One `stream.write` call: the pieces concatenated into that write,
in order. -/
abbrev Write := List Token

/-- The text content carried by a token (empty for pure escape codes). -/
def Token.textContent : Token → Str
  | .text s => s
  | _ => []

/-- All text content emitted by a sequence of writes, in order. -/
def writtenText (ws : List Write) : Str :=
  (ws.flatten.map Token.textContent).flatten

/-- Number of full-terminal-clear primitives in a sequence of writes. -/
def clearCount (ws : List Write) : Nat :=
  ws.flatten.countP fun t => decide (t = Token.clearTerminal)

/-- Terminal-row semantics of a token stream: starting from a cursor row,
returns the list of rows at which visible output lands (a line erase, or a
nonempty text segment).  `text` advances the row by its newline count,
`cursorUp` moves up, `cursorNextLine` moves down, `eraseLines n` erases the
current row and the `n - 1` rows above it and leaves the cursor on the
topmost of them, `clearTerminal` homes the cursor. -/
def touchedRows : Int → List Token → List Int
  | _, [] => []
  | r, Token.text s :: ts =>
      let segs := splitNl s
      ((List.range segs.length).filterMap fun i =>
        if segs.getD i [] = [] then none else some (r + i))
      ++ touchedRows (r + ((segs.length - 1 : Nat) : Int)) ts
  | r, Token.eraseLines n :: ts =>
      if n = 0 then touchedRows r ts
      else ((List.range n).map fun i => r - i) ++ touchedRows (r - ((n : Int) - 1)) ts
  | r, Token.eraseLine :: ts => r :: touchedRows r ts
  | r, Token.cursorUp n :: ts => touchedRows (r - n) ts
  | r, Token.cursorTo _ :: ts => touchedRows r ts
  | r, Token.cursorNextLine :: ts => touchedRows (r + 1) ts
  | _, Token.clearTerminal :: ts => touchedRows 0 ts

/-- The `while` loop of the tall-mode branch that computes
`divergenceIndex`: starting from index `i`, advance while the corresponding
lines of `next` and `prev` agree.  The JavaScript guard `i < bound` is
encoded structurally by the fuel argument `bound - i`; the function is
invoked with fuel `bound` and `i = 0`. -/
def findDiv (prev next : List Str) : Nat → Nat → Nat
  | 0, i => i
  | fuel + 1, i =>
    if next.get? i = prev.get? i then findDiv prev next fuel (i + 1) else i

/-- State of one incremental renderer instance (`createIncremental`). -/
structure IncState where
  previousLines : List Str
  previousOutput : Str
  hasHiddenCursor : Bool
  isInTallMode : Bool
  wantsTallMode : Bool
deriving Repr, DecidableEq

/-- Construction state of `createIncremental`: all fields zero/empty. -/
def IncState.initial : IncState :=
  { previousLines := [], previousOutput := [], hasHiddenCursor := false,
    isInTallMode := false, wantsTallMode := false }

/-- The cursor-hiding prologue shared by every render call: on the first
call with `showCursor = false`, `cliCursor.hide()` is invoked and the flag
recorded.  Only the flag is modelled; hiding is not a stream write. -/
def IncState.hideCursor (showCursor : Bool) (s : IncState) : IncState :=
  if !showCursor && !s.hasHiddenCursor then { s with hasHiddenCursor := true } else s

/-- One buffer entry of the short-mode diff loop: an unchanged line becomes
a bare cursor-to-next-line, a changed line becomes erase-line plus the new
content terminated by a newline. -/
def shortLineChunk (previousLines nextLines : List Str) (i : Nat) : Write :=
  if nextLines.get? i = previousLines.get? i then [Token.cursorNextLine]
  else [Token.eraseLine, Token.text (nextLines.getD i [] ++ ['\n'])]

/-- The tall-mode steady-state branch of the incremental `render`: find the
divergence point, re-anchor the cursor, rewrite from there down, and blank
excess lines when the content shrank. -/
def tallStep (s : IncState) (output : Str) (nextLines : List Str) (visibleCount : Nat) :
    IncState × List Write :=
  let prevVisibleCount : Int := (s.previousLines.length : Int) - 1
  let minCommittedLength : Int := min (prevVisibleCount - 1) ((visibleCount : Int) - 1)
  let divergenceIndex : Nat := findDiv s.previousLines nextLines minCommittedLength.toNat 0
  let linesFromBottomToDivergence : Int := (prevVisibleCount - 1) - divergenceIndex
  let moveWrites : List Write :=
    (if linesFromBottomToDivergence > 0 then [[Token.cursorUp linesFromBottomToDivergence]] else [])
    ++ [[Token.cursorTo 0]]
  let rewriteWrites : List Write :=
    (List.range' divergenceIndex (visibleCount - 1 - divergenceIndex)).map fun i =>
      [Token.eraseLine, Token.text (nextLines.getD i [] ++ ['\n'])]
  let lastWrite : List Write :=
    if visibleCount > 0 then [[Token.eraseLine, Token.text (nextLines.getD (visibleCount - 1) [])]]
    else []
  let shrinkWrites : List Write :=
    if prevVisibleCount > (visibleCount : Int) then
      let extraLines : Int := prevVisibleCount - (visibleCount : Int)
      ((List.range extraLines.toNat).map fun _ => [Token.text ['\n'], Token.eraseLine])
      ++ [[Token.cursorUp extraLines], [Token.cursorTo 0]]
      ++ (if visibleCount > 0 then [[Token.text (nextLines.getD (visibleCount - 1) [])]] else [])
    else []
  ({ s with previousOutput := output, previousLines := nextLines },
   moveWrites ++ rewriteWrites ++ lastWrite ++ shrinkWrites)

/-- The incremental `render` function: returns the successor state and the
list of `stream.write` calls it performs, in order. -/
def IncState.render (showCursor : Bool) (s₀ : IncState) (str : Str) : IncState × List Write :=
  let s := s₀.hideCursor showCursor
  let output := str ++ ['\n']
  if output = s.previousOutput then (s, [])
  else
    let previousCount := s.previousLines.length
    let nextLines := splitNl output
    let nextCount := nextLines.length
    let visibleCount := nextCount - 1
    if s.isInTallMode && !s.wantsTallMode then
      ({ s with isInTallMode := false, previousOutput := output, previousLines := nextLines },
       [[Token.clearTerminal], [Token.text output]])
    else if !s.isInTallMode && s.wantsTallMode then
      ({ s with isInTallMode := true, previousOutput := output, previousLines := nextLines },
       [[Token.clearTerminal]]
       ++ ((List.range (visibleCount - 1)).map fun i => [Token.text (nextLines.getD i [] ++ ['\n'])])
       ++ (if visibleCount > 0 then [[Token.text (nextLines.getD (visibleCount - 1) [])]] else []))
    else if s.isInTallMode then
      tallStep s output nextLines visibleCount
    else if output = ['\n'] ∨ s.previousOutput = [] then
      ({ s with previousOutput := output, previousLines := nextLines },
       [[Token.eraseLines previousCount, Token.text output]])
    else
      let headTokens : Write :=
        if nextCount < previousCount then
          [Token.eraseLines (previousCount - nextCount + 1), Token.cursorUp ((visibleCount : Int))]
        else
          [Token.cursorUp ((previousCount : Int) - 1)]
      ({ s with previousOutput := output, previousLines := nextLines },
       [headTokens ++ ((List.range visibleCount).map (shortLineChunk s.previousLines nextLines)).flatten])

/-- The incremental `render.clear`: erase the tracked region (the whole
terminal height when tall), reset the model, force short mode.  The terminal
height is read from the stream at call time and passed as a parameter. -/
def IncState.clear (s : IncState) (terminalHeight : Nat) : IncState × List Write :=
  let linesToClear := if s.isInTallMode then terminalHeight else s.previousLines.length
  ({ s with previousOutput := [], previousLines := [], isInTallMode := false },
   [[Token.eraseLines linesToClear]])

/-- The incremental `render.done`: reset the model and, when this instance
hid the cursor, show it again (a `cliCursor` call, not a stream write). -/
def IncState.done (showCursor : Bool) (s : IncState) : IncState × List Write :=
  let s := { s with previousOutput := ([] : Str), previousLines := ([] : List Str) }
  (if !showCursor then { s with hasHiddenCursor := false } else s, [])

/-- The incremental `render.sync`: model-only update, no writes. -/
def IncState.sync (s : IncState) (str : Str) : IncState × List Write :=
  let output := str ++ ['\n']
  ({ s with previousOutput := output, previousLines := splitNl output }, [])

/-- The incremental `render.forceRedraw`: clear the terminal, reset the
model, then re-render the previously-known output (if any) through the
normal render path. -/
def IncState.forceRedraw (showCursor : Bool) (s : IncState) : IncState × List Write :=
  let output := s.previousOutput
  let s := { s with previousOutput := ([] : Str), previousLines := ([] : List Str) }
  if output ≠ [] then
    let step := IncState.render showCursor s output.dropLast
    (step.1, [[Token.clearTerminal]] ++ step.2)
  else
    (s, [[Token.clearTerminal]])

/-- The incremental `render.setTallMode`: records the requested mode only;
no write, no other state change. -/
def IncState.setTallMode (s : IncState) (enabled : Bool) : IncState :=
  { s with wantsTallMode := enabled }

/-- State of one standard renderer instance (`createStandard`). -/
structure StdState where
  previousLineCount : Nat
  previousOutput : Str
  hasHiddenCursor : Bool
deriving Repr, DecidableEq

/-- Construction state of `createStandard`. -/
def StdState.initial : StdState :=
  { previousLineCount := 0, previousOutput := [], hasHiddenCursor := false }

/-- Cursor-hiding prologue of the standard `render`. -/
def StdState.hideCursor (showCursor : Bool) (s : StdState) : StdState :=
  if !showCursor && !s.hasHiddenCursor then { s with hasHiddenCursor := true } else s

/-- The standard `render`: no-op on an identical candidate, otherwise erase
the previous region and rewrite the whole candidate. -/
def StdState.render (showCursor : Bool) (s₀ : StdState) (str : Str) : StdState × List Write :=
  let s := s₀.hideCursor showCursor
  let output := str ++ ['\n']
  if output = s.previousOutput then (s, [])
  else
    ({ s with previousOutput := output, previousLineCount := (splitNl output).length },
     [[Token.eraseLines s.previousLineCount, Token.text output]])

/-- The standard `render.clear`. -/
def StdState.clear (s : StdState) : StdState × List Write :=
  ({ s with previousOutput := [], previousLineCount := 0 },
   [[Token.eraseLines s.previousLineCount]])

/-- The standard `render.done`. -/
def StdState.done (showCursor : Bool) (s : StdState) : StdState × List Write :=
  let s := { s with previousOutput := ([] : Str), previousLineCount := 0 }
  (if !showCursor then { s with hasHiddenCursor := false } else s, [])

/-- The standard `render.sync`: model-only update, no writes. -/
def StdState.sync (s : StdState) (str : Str) : StdState × List Write :=
  let output := str ++ ['\n']
  ({ s with previousOutput := output, previousLineCount := (splitNl output).length }, [])

/-- The standard `render.forceRedraw`: just `clear`. -/
def StdState.forceRedraw (s : StdState) : StdState × List Write :=
  s.clear

/-- The error message thrown by the standard `render.setTallMode`. -/
def stdTallModeError : Str :=
  ("The standard renderer does not support tall mode, use the incremental renderer for tall mode support").data

/-- The standard `render.setTallMode`: throws unconditionally, before any
state mutation; modelled as returning the unchanged state together with the
error. -/
def StdState.setTallMode (s : StdState) (_enabled : Bool) : StdState × Except Str Unit :=
  (s, Except.error stdTallModeError)

/-- The standard `render.wantsTallMode`: always false. -/
def StdState.wantsTall (_ : StdState) : Bool := false

def IncState.wf (s : IncState) : Prop :=
  (s.previousOutput = [] ∧ s.previousLines = []) ∨
  ((∃ x, s.previousOutput = x ++ ['\n']) ∧ s.previousLines = splitNl s.previousOutput)

/-- Cursor-row tracking companion of `touchedRows`: the row at which the
cursor rests after interpreting a token stream from a starting row. -/
def rowAfter : Int → List Token → Int
  | r, [] => r
  | r, Token.text s :: ts => rowAfter (r + (((splitNl s).length - 1 : Nat) : Int)) ts
  | r, Token.eraseLines n :: ts =>
      if n = 0 then rowAfter r ts else rowAfter (r - ((n : Int) - 1)) ts
  | r, Token.eraseLine :: ts => rowAfter r ts
  | r, Token.cursorUp n :: ts => rowAfter (r - n) ts
  | r, Token.cursorTo _ :: ts => rowAfter r ts
  | r, Token.cursorNextLine :: ts => rowAfter (r + 1) ts
  | _, Token.clearTerminal :: ts => rowAfter 0 ts

/-- A concrete tall-mode steady state holding the output `"l1\nl2\nl3\n"`,
used to witness the tall-mode diff claim. -/
def tallPrevState : IncState :=
  { previousLines := splitNl ("l1\nl2\nl3\n".data), previousOutput := "l1\nl2\nl3\n".data,
    hasHiddenCursor := true, isInTallMode := true, wantsTallMode := true }

/-! ### Basic facts about line splitting and joining -/

theorem splitNl_ne_nil (s : Str) : splitNl s ≠ [] := by
  induction s with
  | nil => simp [splitNl]
  | cons c cs ih =>
    cases h : splitNl cs with
    | nil => exact absurd h ih
    | cons l ls =>
      simp only [splitNl, h]
      split <;> simp

theorem splitNl_append_nl (s : Str) : splitNl (s ++ ['\n']) = splitNl s ++ [[]] := by
  induction s with
  | nil => rfl
  | cons c cs ih =>
    cases h : splitNl cs with
    | nil => exact absurd h (splitNl_ne_nil cs)
    | cons l ls =>
      have h2 : splitNl (cs ++ ['\n']) = l :: (ls ++ [[]]) := by rw [ih, h]; rfl
      simp only [List.cons_append, List.append_eq, splitNl, h, h2]
      split <;> simp

theorem nl_not_mem_splitNl (s : Str) : ∀ l ∈ splitNl s, '\n' ∉ l := by
  induction s with
  | nil => simp [splitNl]
  | cons c cs ih =>
    cases h : splitNl cs with
    | nil => exact absurd h (splitNl_ne_nil cs)
    | cons l ls =>
      rw [h] at ih
      simp only [splitNl, h]
      split
      · rename_i hc
        intro m hm
        rcases List.mem_cons.mp hm with h1 | h2
        · simp [h1]
        · exact ih _ h2
      · rename_i hc
        intro m hm
        rcases List.mem_cons.mp hm with h1 | h2
        · subst h1
          intro hmem
          rcases List.mem_cons.mp hmem with h3 | h4
          · exact hc h3.symm
          · exact ih l (by simp) h4
        · exact ih _ (List.mem_cons_of_mem _ h2)

theorem joinNl_cons {ls : List Str} (l : Str) (h : ls ≠ []) :
    joinNl (l :: ls) = l ++ '\n' :: joinNl ls := by
  cases ls with
  | nil => exact absurd rfl h
  | cons a as => rfl

theorem joinNl_splitNl (s : Str) : joinNl (splitNl s) = s := by
  induction s with
  | nil => rfl
  | cons c cs ih =>
    cases h : splitNl cs with
    | nil => exact absurd h (splitNl_ne_nil cs)
    | cons l ls =>
      rw [h] at ih
      simp only [splitNl, h]
      split
      · rename_i hc
        rw [joinNl_cons _ (by simp)]
        simp [hc, ih]
      · cases ls with
        | nil =>
          have hl : l = cs := ih
          show c :: l = c :: cs
          rw [hl]
        | cons b bs =>
          rw [joinNl_cons _ (by simp)]
          rw [joinNl_cons _ (by simp)] at ih
          show (c :: l) ++ '\n' :: joinNl (b :: bs) = c :: cs
          simp only [List.cons_append]
          rw [← ih]

theorem length_splitNl_pos (s : Str) : 0 < (splitNl s).length :=
  List.length_pos.mpr (splitNl_ne_nil s)

theorem length_splitNl_append_nl (s : Str) :
    (splitNl (s ++ ['\n'])).length = (splitNl s).length + 1 := by
  rw [splitNl_append_nl]; simp

theorem one_lt_length_splitNl_append_nl (s : Str) :
    1 < (splitNl (s ++ ['\n'])).length := by
  rw [length_splitNl_append_nl]
  exact Nat.succ_lt_succ (length_splitNl_pos s)

/-! ### Branch characterizations of the incremental render -/

@[simp] theorem hideCursor_previousOutput (sc : Bool) (s : IncState) :
    (s.hideCursor sc).previousOutput = s.previousOutput := by
  unfold IncState.hideCursor; split <;> rfl

@[simp] theorem hideCursor_previousLines (sc : Bool) (s : IncState) :
    (s.hideCursor sc).previousLines = s.previousLines := by
  unfold IncState.hideCursor; split <;> rfl

@[simp] theorem hideCursor_isInTallMode (sc : Bool) (s : IncState) :
    (s.hideCursor sc).isInTallMode = s.isInTallMode := by
  unfold IncState.hideCursor; split <;> rfl

@[simp] theorem hideCursor_wantsTallMode (sc : Bool) (s : IncState) :
    (s.hideCursor sc).wantsTallMode = s.wantsTallMode := by
  unfold IncState.hideCursor; split <;> rfl

theorem render_noop (sc : Bool) (s₀ : IncState) (str : Str)
    (h : str ++ ['\n'] = s₀.previousOutput) :
    IncState.render sc s₀ str = (s₀.hideCursor sc, []) := by
  simp only [IncState.render, hideCursor_previousOutput, h, if_pos]

theorem render_tallToShort (sc : Bool) (s₀ : IncState) (str : Str)
    (hne : str ++ ['\n'] ≠ s₀.previousOutput)
    (htall : s₀.isInTallMode = true) (hwants : s₀.wantsTallMode = false) :
    IncState.render sc s₀ str =
      ({ (s₀.hideCursor sc) with
          isInTallMode := false,
          previousOutput := str ++ ['\n'],
          previousLines := splitNl (str ++ ['\n']) },
       [[Token.clearTerminal], [Token.text (str ++ ['\n'])]]) := by
  simp only [IncState.render, hideCursor_previousOutput, hideCursor_isInTallMode,
    hideCursor_wantsTallMode, hne, htall, hwants]
  simp

theorem render_shortToTall (sc : Bool) (s₀ : IncState) (str : Str)
    (hne : str ++ ['\n'] ≠ s₀.previousOutput)
    (htall : s₀.isInTallMode = false) (hwants : s₀.wantsTallMode = true) :
    IncState.render sc s₀ str =
      (let nextLines := splitNl (str ++ ['\n'])
       let visibleCount := nextLines.length - 1
       ({ (s₀.hideCursor sc) with
           isInTallMode := true,
           previousOutput := str ++ ['\n'],
           previousLines := nextLines },
        [[Token.clearTerminal]]
        ++ ((List.range (visibleCount - 1)).map fun i => [Token.text (nextLines.getD i [] ++ ['\n'])])
        ++ (if visibleCount > 0 then [[Token.text (nextLines.getD (visibleCount - 1) [])]] else []))) := by
  simp only [IncState.render, hideCursor_previousOutput, hideCursor_isInTallMode,
    hideCursor_wantsTallMode, hne, htall, hwants]
  simp

theorem render_tallSteady (sc : Bool) (s₀ : IncState) (str : Str)
    (hne : str ++ ['\n'] ≠ s₀.previousOutput)
    (htall : s₀.isInTallMode = true) (hwants : s₀.wantsTallMode = true) :
    IncState.render sc s₀ str =
      tallStep (s₀.hideCursor sc) (str ++ ['\n']) (splitNl (str ++ ['\n']))
        ((splitNl (str ++ ['\n'])).length - 1) := by
  simp only [IncState.render, hideCursor_previousOutput, hideCursor_isInTallMode,
    hideCursor_wantsTallMode, hne, htall, hwants]
  simp

theorem render_shortFull (sc : Bool) (s₀ : IncState) (str : Str)
    (hne : str ++ ['\n'] ≠ s₀.previousOutput)
    (htall : s₀.isInTallMode = false) (hwants : s₀.wantsTallMode = false)
    (hsp : str ++ ['\n'] = ['\n'] ∨ s₀.previousOutput = []) :
    IncState.render sc s₀ str =
      ({ (s₀.hideCursor sc) with
          previousOutput := str ++ ['\n'],
          previousLines := splitNl (str ++ ['\n']) },
       [[Token.eraseLines s₀.previousLines.length, Token.text (str ++ ['\n'])]]) := by
  simp only [IncState.render, hideCursor_previousOutput, hideCursor_isInTallMode,
    hideCursor_wantsTallMode, hideCursor_previousLines, hne, htall, hwants]
  rcases hsp with hsp | hsp
  · simp [hsp]
  · simp [hsp]

theorem render_shortSteady (sc : Bool) (s₀ : IncState) (str : Str)
    (hne : str ++ ['\n'] ≠ s₀.previousOutput)
    (htall : s₀.isInTallMode = false) (hwants : s₀.wantsTallMode = false)
    (hnb : str ≠ []) (hprev : s₀.previousOutput ≠ []) :
    IncState.render sc s₀ str =
      (let nextLines := splitNl (str ++ ['\n'])
       let nextCount := nextLines.length
       let previousCount := s₀.previousLines.length
       let visibleCount := nextCount - 1
       let headTokens : Write :=
         if nextCount < previousCount then
           [Token.eraseLines (previousCount - nextCount + 1), Token.cursorUp ((visibleCount : Int))]
         else
           [Token.cursorUp ((previousCount : Int) - 1)]
       ({ (s₀.hideCursor sc) with
           previousOutput := str ++ ['\n'],
           previousLines := nextLines },
        [headTokens ++ ((List.range visibleCount).map (shortLineChunk s₀.previousLines nextLines)).flatten])) := by
  have hnl : str ++ ['\n'] ≠ ['\n'] := by
    intro h
    apply hnb
    have := congrArg List.dropLast h
    simpa using this
  simp only [IncState.render, hideCursor_previousOutput, hideCursor_isInTallMode,
    hideCursor_wantsTallMode, hideCursor_previousLines, hne, htall, hwants]
  simp [hnl, hprev]

/-! ### State invariant and field tracking -/



theorem wf_initial : IncState.initial.wf := Or.inl ⟨rfl, rfl⟩

theorem wf_hideCursor (sc : Bool) (s : IncState) (h : s.wf) : (s.hideCursor sc).wf := by
  simp only [IncState.wf, hideCursor_previousOutput, hideCursor_previousLines]
  exact h

theorem render_fst_previousOutput (sc : Bool) (s : IncState) (x : Str) :
    (IncState.render sc s x).1.previousOutput = x ++ ['\n'] := by
  simp only [IncState.render]
  split_ifs with h1 h2 h3 h4 h5 <;> simp_all [tallStep]

theorem render_fst_previousLines (sc : Bool) (s : IncState) (x : Str)
    (hne : x ++ ['\n'] ≠ s.previousOutput) :
    (IncState.render sc s x).1.previousLines = splitNl (x ++ ['\n']) := by
  simp only [IncState.render]
  split_ifs with h1 h2 h3 h4 h5 <;> simp_all [tallStep]

theorem render_fst_wantsTallMode (sc : Bool) (s : IncState) (x : Str) :
    (IncState.render sc s x).1.wantsTallMode = s.wantsTallMode := by
  simp only [IncState.render]
  split_ifs with h1 h2 h3 h4 h5 <;> simp_all [tallStep]

theorem wf_render (sc : Bool) (s : IncState) (x : Str) (h : s.wf) :
    (IncState.render sc s x).1.wf := by
  by_cases hne : x ++ ['\n'] = s.previousOutput
  · rw [render_noop sc s x hne]
    exact wf_hideCursor sc s h
  · right
    refine ⟨⟨x, render_fst_previousOutput sc s x⟩, ?_⟩
    rw [render_fst_previousOutput sc s x, render_fst_previousLines sc s x hne]

theorem wf_sync (s : IncState) (x : Str) : (s.sync x).1.wf :=
  Or.inr ⟨⟨x, rfl⟩, rfl⟩

theorem wf_clear (s : IncState) (th : Nat) : (s.clear th).1.wf := Or.inl ⟨rfl, rfl⟩

theorem wf_done (sc : Bool) (s : IncState) : (s.done sc).1.wf := by
  unfold IncState.done
  split <;> exact Or.inl ⟨rfl, rfl⟩

theorem wf_setTallMode (s : IncState) (b : Bool) (h : s.wf) : (s.setTallMode b).wf := h

theorem wf_forceRedraw (sc : Bool) (s : IncState) : (s.forceRedraw sc).1.wf := by
  simp only [IncState.forceRedraw]
  split
  · exact wf_render sc _ _ (Or.inl ⟨rfl, rfl⟩)
  · exact Or.inl ⟨rfl, rfl⟩

/-! ### Divergence-scan characterization -/

theorem findDiv_ge (prev next : List Str) : ∀ fuel i, i ≤ findDiv prev next fuel i := by
  intro fuel
  induction fuel with
  | zero => intro i; simp [findDiv]
  | succ n ih =>
    intro i
    simp only [findDiv]
    split
    · exact le_trans (Nat.le_succ i) (ih (i + 1))
    · exact le_refl i

theorem findDiv_le (prev next : List Str) : ∀ fuel i, findDiv prev next fuel i ≤ i + fuel := by
  intro fuel
  induction fuel with
  | zero => intro i; simp [findDiv]
  | succ n ih =>
    intro i
    simp only [findDiv]
    split
    · exact le_trans (ih (i + 1)) (by omega)
    · omega

theorem findDiv_eq_before (prev next : List Str) :
    ∀ fuel i j, i ≤ j → j < findDiv prev next fuel i → next.get? j = prev.get? j := by
  intro fuel
  induction fuel with
  | zero => intro i j hij hj; simp [findDiv] at hj; omega
  | succ n ih =>
    intro i j hij hj
    simp only [findDiv] at hj
    split at hj
    · rename_i heq
      rcases Nat.eq_or_lt_of_le hij with h | h
      · exact h ▸ heq
      · exact ih (i + 1) j h hj
    · omega

theorem findDiv_stop (prev next : List Str) :
    ∀ fuel i, findDiv prev next fuel i = i + fuel ∨
      next.get? (findDiv prev next fuel i) ≠ prev.get? (findDiv prev next fuel i) := by
  intro fuel
  induction fuel with
  | zero => intro i; left; simp [findDiv]
  | succ n ih =>
    intro i
    simp only [findDiv]
    split
    · rcases ih (i + 1) with h | h
      · left; omega
      · right; exact h
    · rename_i h; right; exact h

/-! ### Emitted-text bookkeeping -/

@[simp] theorem writtenText_nil : writtenText [] = [] := rfl

theorem writtenText_cons (w : Write) (ws : List Write) :
    writtenText (w :: ws) = (w.map Token.textContent).flatten ++ writtenText ws := by
  simp [writtenText]

theorem writtenText_append (ws₁ ws₂ : List Write) :
    writtenText (ws₁ ++ ws₂) = writtenText ws₁ ++ writtenText ws₂ := by
  simp [writtenText]

theorem getD_range_map_take {α : Type} (l : List α) (d : α) :
    ∀ n, n ≤ l.length → (List.range n).map (fun i => l.getD i d) = l.take n := by
  intro n
  induction n with
  | zero => simp
  | succ k ih =>
    intro hk
    rw [List.range_succ, List.map_append, ih (by omega)]
    simp only [List.map_cons, List.map_nil]
    rw [← List.take_concat_get _ _ (by omega)]
    simp [List.getD, List.get?_eq_getElem?, List.getElem?_eq_getElem (by omega : k < l.length)]

theorem join_pieces (ls : List Str) (h : ls ≠ []) :
    ((List.range (ls.length - 1)).map fun i => ls.getD i [] ++ ['\n']).flatten
      ++ ls.getD (ls.length - 1) [] = joinNl ls := by
  induction ls with
  | nil => exact absurd rfl h
  | cons l ls ih =>
    cases ls with
    | nil => simp [joinNl]
    | cons b bs =>
      have hne : b :: bs ≠ [] := by simp
      have hlen : (l :: b :: bs).length - 1 = ((b :: bs).length - 1) + 1 := by simp
      rw [joinNl_cons _ hne, hlen, List.range_succ_eq_map]
      simp only [List.map_cons, List.map_map, List.flatten_cons]
      have hmap : (List.range ((b :: bs).length - 1)).map ((fun i => (l :: b :: bs).getD i [] ++ ['\n']) ∘ Nat.succ)
          = (List.range ((b :: bs).length - 1)).map (fun i => (b :: bs).getD i [] ++ ['\n']) := by
        apply List.map_congr_left
        intro a _
        rfl
      rw [hmap]
      have hlast : (l :: b :: bs).getD ((b :: bs).length - 1 + 1) [] = (b :: bs).getD ((b :: bs).length - 1) [] := rfl
      rw [hlast, List.append_assoc, ih hne]
      simp

theorem writtenText_textWrites (g : Nat → Str) (l : List Nat) :
    writtenText (l.map fun i => [Token.text (g i)]) = (l.map g).flatten := by
  induction l with
  | nil => rfl
  | cons a l ih =>
    simp only [List.map_cons, writtenText_cons, ih]
    simp [Token.textContent]

theorem pieces_eq (x : Str) :
    (((List.range ((splitNl (x ++ ['\n'])).length - 1 - 1)).map
        fun i => (splitNl (x ++ ['\n'])).getD i [] ++ ['\n']).flatten)
      ++ (splitNl (x ++ ['\n'])).getD ((splitNl (x ++ ['\n'])).length - 1 - 1) [] = x := by
  have hsp := splitNl_append_nl x
  have hm : 0 < (splitNl x).length := length_splitNl_pos x
  have hlen : (splitNl (x ++ ['\n'])).length - 1 - 1 = (splitNl x).length - 1 := by
    rw [hsp]; simp
  rw [hlen]
  have hmap : (List.range ((splitNl x).length - 1)).map (fun i => (splitNl (x ++ ['\n'])).getD i [] ++ ['\n'])
      = (List.range ((splitNl x).length - 1)).map (fun i => (splitNl x).getD i [] ++ ['\n']) := by
    apply List.map_congr_left
    intro a ha
    rw [List.mem_range] at ha
    rw [hsp, List.getD_append _ _ _ _ (by omega)]
  have hlast : (splitNl (x ++ ['\n'])).getD ((splitNl x).length - 1) []
      = (splitNl x).getD ((splitNl x).length - 1) [] := by
    rw [hsp, List.getD_append _ _ _ _ (by omega)]
  rw [hmap, hlast, join_pieces (splitNl x) (splitNl_ne_nil x), joinNl_splitNl]

theorem writtenText_eraseTextWrites (g : Nat → Str) (l : List Nat) :
    writtenText (l.map fun i => [Token.eraseLine, Token.text (g i)]) = (l.map g).flatten := by
  induction l with
  | nil => rfl
  | cons a l ih =>
    simp only [List.map_cons, writtenText_cons, ih]
    simp [Token.textContent]

theorem tallWrite_text (x : Str) :
    writtenText
      (((List.range ((splitNl (x ++ ['\n'])).length - 1 - 1)).map
          fun i => [Token.text ((splitNl (x ++ ['\n'])).getD i [] ++ ['\n'])])
        ++ [[Token.text ((splitNl (x ++ ['\n'])).getD ((splitNl (x ++ ['\n'])).length - 1 - 1) [])]])
      = x := by
  rw [writtenText_append, writtenText_textWrites]
  have h2 : writtenText [[Token.text ((splitNl (x ++ ['\n'])).getD ((splitNl (x ++ ['\n'])).length - 1 - 1) [])]]
      = (splitNl (x ++ ['\n'])).getD ((splitNl (x ++ ['\n'])).length - 1 - 1) [] := by
    simp [writtenText, Token.textContent]
  rw [h2, pieces_eq]

theorem tallWrite_eraseText (x : Str) :
    writtenText
      (((List.range ((splitNl (x ++ ['\n'])).length - 1 - 1)).map
          fun i => [Token.eraseLine, Token.text ((splitNl (x ++ ['\n'])).getD i [] ++ ['\n'])])
        ++ [[Token.eraseLine, Token.text ((splitNl (x ++ ['\n'])).getD ((splitNl (x ++ ['\n'])).length - 1 - 1) [])]])
      = x := by
  rw [writtenText_append, writtenText_eraseTextWrites]
  have h2 : writtenText [[Token.eraseLine, Token.text ((splitNl (x ++ ['\n'])).getD ((splitNl (x ++ ['\n'])).length - 1 - 1) [])]]
      = (splitNl (x ++ ['\n'])).getD ((splitNl (x ++ ['\n'])).length - 1 - 1) [] := by
    simp [writtenText, Token.textContent]
  rw [h2, pieces_eq]

/-! ### Standard renderer facts -/

@[simp] theorem std_hideCursor_previousOutput (sc : Bool) (s : StdState) :
    (s.hideCursor sc).previousOutput = s.previousOutput := by
  unfold StdState.hideCursor; split <;> rfl

@[simp] theorem std_hideCursor_previousLineCount (sc : Bool) (s : StdState) :
    (s.hideCursor sc).previousLineCount = s.previousLineCount := by
  unfold StdState.hideCursor; split <;> rfl

theorem std_render_noop (sc : Bool) (s : StdState) (x : Str)
    (h : x ++ ['\n'] = s.previousOutput) :
    StdState.render sc s x = (s.hideCursor sc, []) := by
  simp only [StdState.render, std_hideCursor_previousOutput, h, if_pos]

theorem std_render_fst_previousOutput (sc : Bool) (s : StdState) (x : Str) :
    (StdState.render sc s x).1.previousOutput = x ++ ['\n'] := by
  simp only [StdState.render]
  split_ifs with h1 <;> simp_all

/-- C5: for both renderer variants, a second immediately repeated `render`
with the same snapshot writes nothing: the first call always leaves
`previousOutput` equal to the candidate `x ++ "\n"`, so the second call hits
the byte-identical no-op check and returns before any transition check or
write. -/
theorem C5_render_idempotent (sc : Bool) (sInc : IncState) (sStd : StdState) (x : Str) :
    (IncState.render sc (IncState.render sc sInc x).1 x).2 = [] ∧
    (StdState.render sc (StdState.render sc sStd x).1 x).2 = [] := by
  constructor
  · rw [render_noop sc _ x (render_fst_previousOutput sc sInc x).symm]
  · rw [std_render_noop sc _ x (std_render_fst_previousOutput sc sStd x).symm]

/-- C6: for both renderer variants, `sync(x)` writes nothing and updates
only the model fields (`previousOutput` and line bookkeeping), and a
subsequent `render(x)` also writes nothing since the model now matches the
candidate. -/
theorem C6_sync_roundtrip (sc : Bool) (sInc : IncState) (sStd : StdState) (x : Str) :
    (sInc.sync x).2 = [] ∧
    (sInc.sync x).1 = { sInc with
      previousOutput := x ++ ['\n'], previousLines := splitNl (x ++ ['\n']) } ∧
    (IncState.render sc (sInc.sync x).1 x).2 = [] ∧
    (sStd.sync x).2 = [] ∧
    (sStd.sync x).1 = { sStd with
      previousOutput := x ++ ['\n'], previousLineCount := (splitNl (x ++ ['\n'])).length } ∧
    (StdState.render sc (sStd.sync x).1 x).2 = [] := by
  refine ⟨rfl, rfl, ?_, rfl, rfl, ?_⟩
  · rw [render_noop sc _ x rfl]
  · rw [std_render_noop sc _ x rfl]

/-- C9: the standard renderer's `setTallMode` fails on every input and in
every state with the fixed error message that directs the caller to the
incremental renderer, and the state is unchanged by the failed call (the
throw happens before any mutation).  All other operations of both variants
are modelled as total functions: this is the only operation that can
raise. -/
theorem C9_std_setTallMode_raises (s : StdState) (enabled : Bool) :
    (s.setTallMode enabled).1 = s ∧
    (s.setTallMode enabled).2 = Except.error stdTallModeError ∧
    stdTallModeError =
      ("The standard renderer does not support tall mode, use the ").data
        ++ ("incremental renderer").data ++ (" for tall mode support").data := by
  refine ⟨rfl, rfl, by decide⟩

/-! ### Field bookkeeping for the side operations -/

@[simp] theorem clear_fst (s : IncState) (th : Nat) :
    (s.clear th).1 = { s with previousOutput := [], previousLines := [], isInTallMode := false } := rfl

@[simp] theorem done_fst_previousOutput (sc : Bool) (s : IncState) :
    (s.done sc).1.previousOutput = [] := by
  unfold IncState.done; split <;> rfl

@[simp] theorem done_fst_previousLines (sc : Bool) (s : IncState) :
    (s.done sc).1.previousLines = [] := by
  unfold IncState.done; split <;> rfl

@[simp] theorem done_fst_isInTallMode (sc : Bool) (s : IncState) :
    (s.done sc).1.isInTallMode = s.isInTallMode := by
  unfold IncState.done; split <;> rfl

@[simp] theorem done_fst_wantsTallMode (sc : Bool) (s : IncState) :
    (s.done sc).1.wantsTallMode = s.wantsTallMode := by
  unfold IncState.done; split <;> rfl

theorem append_singleton_ne_nil {a : Char} {l : Str} : l ++ [a] ≠ ([] : Str) := by
  simp

/-- C10: the incremental `clear` resets the model and forces short mode but
leaves the requested `wantsTallMode` flag alone, so after
`setTallMode(true); render(x); clear()` the caller still wants tall mode and
the next render (of any snapshot) performs the short-to-tall transition —
its first write is the full-terminal clear and it flips `isInTallMode` to
true — rather than a short-mode diff. -/
theorem C10_clear_preserves_wantsTallMode (sc : Bool) (s : IncState) (x y : Str) (th : Nat) :
    ((((IncState.render sc (s.setTallMode true) x).1.clear th).1.wantsTallMode = true) ∧
     (((IncState.render sc (s.setTallMode true) x).1.clear th).1.isInTallMode = false) ∧
     (((IncState.render sc (s.setTallMode true) x).1.clear th).1.previousOutput = []) ∧
     (((IncState.render sc (s.setTallMode true) x).1.clear th).1.previousLines = [])) ∧
    ((IncState.render sc (((IncState.render sc (s.setTallMode true) x).1.clear th).1) y).2.head?
        = some [Token.clearTerminal]) ∧
    ((IncState.render sc (((IncState.render sc (s.setTallMode true) x).1.clear th).1) y).1.isInTallMode
        = true) := by
  have hw : ((IncState.render sc (s.setTallMode true) x).1.clear th).1.wantsTallMode = true := by
    simp only [clear_fst]
    show (IncState.render sc (s.setTallMode true) x).1.wantsTallMode = true
    rw [render_fst_wantsTallMode]
    rfl
  have hit : ((IncState.render sc (s.setTallMode true) x).1.clear th).1.isInTallMode = false := by
    simp only [clear_fst]
  have hpo : ((IncState.render sc (s.setTallMode true) x).1.clear th).1.previousOutput = [] := by
    simp only [clear_fst]
  have hpl : ((IncState.render sc (s.setTallMode true) x).1.clear th).1.previousLines = [] := by
    simp only [clear_fst]
  have hne : y ++ ['\n'] ≠ ((IncState.render sc (s.setTallMode true) x).1.clear th).1.previousOutput := by
    rw [hpo]; exact append_singleton_ne_nil
  rw [render_shortToTall sc _ y hne hit hw]
  refine ⟨⟨hw, hit, hpo, hpl⟩, ?_, ?_⟩ <;> simp

/-- C4 counterexample: in the construction state the invariant fails —
`previousLines` is the empty array (length 0) while
`previousOutput.split('\n')` applied to the empty string yields one (empty)
segment (length 1).  The same discrepancy holds after `clear()` and
`done()`, which reset both fields the same way. -/
theorem C4_counterexample :
    IncState.initial.previousLines.length ≠ (splitNl IncState.initial.previousOutput).length
      ∧ (IncState.initial.clear 24).1.previousLines.length
          ≠ (splitNl (IncState.initial.clear 24).1.previousOutput).length := by
  decide

/-- C4 amended: `previousLines = splitNl previousOutput` (hence equal
lengths) holds in every state whose `previousOutput` is nonempty, and this
alternative is preserved by every operation starting from construction; but
in the construction state and in the states produced by `clear()`, `done()`
and the reset of `forceRedraw()`, `previousOutput` is the empty string and
`previousLines` is the empty array, whose length is one less than the
length of `previousOutput.split('\n')`. -/
theorem C4_amended_invariant :
    IncState.initial.wf ∧
    (∀ (sc : Bool) (s : IncState) (x : Str), s.wf → (IncState.render sc s x).1.wf) ∧
    (∀ (s : IncState) (x : Str), (s.sync x).1.wf) ∧
    (∀ (s : IncState) (th : Nat), (s.clear th).1.wf) ∧
    (∀ (sc : Bool) (s : IncState), (s.done sc).1.wf) ∧
    (∀ (sc : Bool) (s : IncState), (s.forceRedraw sc).1.wf) ∧
    (∀ (s : IncState) (b : Bool), s.wf → (s.setTallMode b).wf) ∧
    (∀ (s : IncState) (th : Nat), (s.clear th).1.previousLines = [] ∧
        (s.clear th).1.previousOutput = []) ∧
    (∀ (sc : Bool) (s : IncState), (s.done sc).1.previousLines = [] ∧
        (s.done sc).1.previousOutput = []) ∧
    (∀ s : IncState, s.wf → s.previousOutput ≠ [] →
        s.previousLines.length = (splitNl s.previousOutput).length) ∧
    (∀ s : IncState, s.wf → s.previousOutput = [] →
        s.previousLines.length + 1 = (splitNl s.previousOutput).length) := by
  refine ⟨wf_initial, wf_render, wf_sync, wf_clear, wf_done, wf_forceRedraw, wf_setTallMode,
    ?_, ?_, ?_, ?_⟩
  · intro s th; exact ⟨by simp, by simp⟩
  · intro sc s; exact ⟨by simp, by simp⟩
  · intro s hwf hne
    rcases hwf with ⟨h1, _⟩ | ⟨_, h2⟩
    · exact absurd h1 hne
    · rw [h2]
  · intro s hwf he
    rcases hwf with ⟨_, h2⟩ | ⟨⟨x, hx⟩, _⟩
    · rw [h2, he]; rfl
    · rw [hx] at he
      exact absurd he append_singleton_ne_nil

/-- C4 witness: the amended invariant instantiated after one concrete
render from the construction state. -/
theorem C4_amended_witness :
    (IncState.render false IncState.initial ("a".data)).1.wf ∧
    (IncState.render false IncState.initial ("a".data)).1.previousLines.length
      = (splitNl (IncState.render false IncState.initial ("a".data)).1.previousOutput).length := by
  have hwf := C4_amended_invariant.2.1 false IncState.initial ("a".data) C4_amended_invariant.1
  refine ⟨hwf, ?_⟩
  exact C4_amended_invariant.2.2.2.2.2.2.2.2.2.1 _ hwf (by decide)

theorem tallStep_of_empty_prev (s : IncState) (hprev : s.previousLines = [])
    (output : Str) (nextLines : List Str) (vc : Nat) (hvc : 0 < vc) :
    tallStep s output nextLines vc
      = ({ s with previousOutput := output, previousLines := nextLines },
         [[Token.cursorTo 0]]
         ++ ((List.range' 0 (vc - 1)).map fun i =>
              [Token.eraseLine, Token.text (nextLines.getD i [] ++ ['\n'])])
         ++ [[Token.eraseLine, Token.text (nextLines.getD (vc - 1) [])]]) := by
  simp only [tallStep, hprev, List.length_nil, Nat.cast_zero, zero_sub]
  have hm : (((-1 : Int) - 1) ⊓ ((vc : Int) - 1)).toNat = 0 := by
    have h : ((-1 : Int) - 1) ⊓ ((vc : Int) - 1) = -2 := min_eq_left (by omega)
    rw [h]
    rfl
  rw [hm, show findDiv [] nextLines 0 0 = 0 from rfl]
  rw [if_neg (by norm_num : ¬(-1 : Int) - 1 - ((0 : Nat) : Int) > 0)]
  rw [if_pos hvc]
  rw [if_neg (by omega : ¬(-1 : Int) > (vc : Int))]
  simp

theorem writtenText_clear_cons (ws : List Write) :
    writtenText ([Token.clearTerminal] :: ws) = writtenText ws := by
  simp [writtenText_cons, Token.textContent]

theorem writtenText_cursorTo_cons (n : Nat) (ws : List Write) :
    writtenText ([Token.cursorTo n] :: ws) = writtenText ws := by
  simp [writtenText_cons, Token.textContent]

theorem writes_clear_lines_text (x : Str) :
    writtenText
      ([[Token.clearTerminal]]
        ++ ((List.range ((splitNl (x ++ ['\n'])).length - 1 - 1)).map
              fun i => [Token.text ((splitNl (x ++ ['\n'])).getD i [] ++ ['\n'])])
        ++ [[Token.text ((splitNl (x ++ ['\n'])).getD ((splitNl (x ++ ['\n'])).length - 1 - 1) [])]])
      = x := by
  rw [List.append_assoc]
  rw [show ([[Token.clearTerminal]] : List Write)
        ++ (((List.range ((splitNl (x ++ ['\n'])).length - 1 - 1)).map
              fun i => [Token.text ((splitNl (x ++ ['\n'])).getD i [] ++ ['\n'])])
            ++ [[Token.text ((splitNl (x ++ ['\n'])).getD ((splitNl (x ++ ['\n'])).length - 1 - 1) [])]])
      = [Token.clearTerminal]
        :: (((List.range ((splitNl (x ++ ['\n'])).length - 1 - 1)).map
              fun i => [Token.text ((splitNl (x ++ ['\n'])).getD i [] ++ ['\n'])])
            ++ [[Token.text ((splitNl (x ++ ['\n'])).getD ((splitNl (x ++ ['\n'])).length - 1 - 1) [])]]) from rfl]
  rw [writtenText_clear_cons]
  exact tallWrite_text x

theorem writes_cursor_lines_text (x : Str) :
    writtenText
      ([[Token.cursorTo 0]]
        ++ ((List.range ((splitNl (x ++ ['\n'])).length - 1 - 1)).map
              fun i => [Token.eraseLine, Token.text ((splitNl (x ++ ['\n'])).getD i [] ++ ['\n'])])
        ++ [[Token.eraseLine, Token.text ((splitNl (x ++ ['\n'])).getD ((splitNl (x ++ ['\n'])).length - 1 - 1) [])]])
      = x := by
  rw [List.append_assoc]
  rw [show ([[Token.cursorTo 0]] : List Write)
        ++ (((List.range ((splitNl (x ++ ['\n'])).length - 1 - 1)).map
              fun i => [Token.eraseLine, Token.text ((splitNl (x ++ ['\n'])).getD i [] ++ ['\n'])])
            ++ [[Token.eraseLine, Token.text ((splitNl (x ++ ['\n'])).getD ((splitNl (x ++ ['\n'])).length - 1 - 1) [])]])
      = [Token.cursorTo 0]
        :: (((List.range ((splitNl (x ++ ['\n'])).length - 1 - 1)).map
              fun i => [Token.eraseLine, Token.text ((splitNl (x ++ ['\n'])).getD i [] ++ ['\n'])])
            ++ [[Token.eraseLine, Token.text ((splitNl (x ++ ['\n'])).getD ((splitNl (x ++ ['\n'])).length - 1 - 1) [])]]) from rfl]
  rw [writtenText_cursorTo_cons]
  exact tallWrite_eraseText x

/-- C7: after `render(x); done(); render(x)` the final render is a full
rewrite of `x` rather than a no-op, whatever the prior state and mode:
`done()` resets `previousOutput`/`previousLines` to empty, the candidate
`x ++ "\n"` cannot equal the empty string, and every non-no-op branch of
`render` from an empty model writes the whole candidate (its text content
is `x ++ "\n"`, or `x` when the final line is parked without its trailing
newline). -/
theorem C7_done_forces_full_rewrite (sc : Bool) (s : IncState) (x : Str) :
    (IncState.render sc ((IncState.render sc s x).1.done sc).1 x).2 ≠ [] ∧
    (writtenText (IncState.render sc ((IncState.render sc s x).1.done sc).1 x).2 = x ++ ['\n'] ∨
     writtenText (IncState.render sc ((IncState.render sc s x).1.done sc).1 x).2 = x) := by
  set s2 : IncState := ((IncState.render sc s x).1.done sc).1 with hs2
  have hpo : s2.previousOutput = [] := by rw [hs2]; simp
  have hpl : s2.previousLines = [] := by rw [hs2]; simp
  have hne : x ++ ['\n'] ≠ s2.previousOutput := by rw [hpo]; exact append_singleton_ne_nil
  have hvc : 0 < (splitNl (x ++ ['\n'])).length - 1 := by
    have := one_lt_length_splitNl_append_nl x
    omega
  cases htall : s2.isInTallMode <;> cases hwants : s2.wantsTallMode
  · -- short mode, stays short: full-write special case (empty previous output)
    rw [render_shortFull sc s2 x hne htall hwants (Or.inr hpo)]
    refine ⟨by simp, Or.inl ?_⟩
    simp [writtenText, Token.textContent]
  · -- short mode, wants tall: transition writes every line of the candidate
    rw [render_shortToTall sc s2 x hne htall hwants]
    simp only []
    rw [if_pos hvc]
    refine ⟨by simp, Or.inr ?_⟩
    exact writes_clear_lines_text x
  · -- tall mode, wants short: transition clears and writes the candidate
    rw [render_tallToShort sc s2 x hne htall hwants]
    refine ⟨by simp, Or.inl ?_⟩
    simp [writtenText, Token.textContent]
  · -- tall steady state from an empty model: rewrites every line
    rw [render_tallSteady sc s2 x hne htall hwants]
    rw [tallStep_of_empty_prev _ (by rw [hideCursor_previousLines]; exact hpl) _ _ _ hvc]
    refine ⟨by simp, Or.inr ?_⟩
    rw [← List.range_eq_range']
    exact writes_cursor_lines_text x

theorem render_writes_ne_nil (sc : Bool) (s : IncState) (x : Str)
    (hne : x ++ ['\n'] ≠ s.previousOutput) :
    (IncState.render sc s x).2 ≠ [] := by
  simp only [IncState.render]
  split_ifs with h1 h2 h3 h4 h5 <;> simp_all [tallStep]

/-- C8: `forceRedraw` always clears the whole terminal first and resets the
model to empty; when there was previous output it immediately re-renders it
through the normal `render` path from the blank baseline (so mode
transitions and diffing re-run), and that re-render is a genuine rewrite
(its candidate equals the old `previousOutput` and it emits at least one
write); when there was no previous output it only clears and resets. -/
theorem C8_forceRedraw_rerenders (sc : Bool) (s : IncState) :
    (s.previousOutput = [] →
      s.forceRedraw sc
        = ({ s with previousOutput := [], previousLines := [] }, [[Token.clearTerminal]])) ∧
    (s.previousOutput ≠ [] →
      s.forceRedraw sc
        = ((IncState.render sc { s with previousOutput := [], previousLines := [] }
              s.previousOutput.dropLast).1,
           [[Token.clearTerminal]]
             ++ (IncState.render sc { s with previousOutput := [], previousLines := [] }
                  s.previousOutput.dropLast).2)) ∧
    (∀ x : Str, s.previousOutput = x ++ ['\n'] →
      s.previousOutput.dropLast ++ ['\n'] = s.previousOutput ∧
      (IncState.render sc { s with previousOutput := [], previousLines := [] }
          s.previousOutput.dropLast).2 ≠ []) := by
  refine ⟨?_, ?_, ?_⟩
  · intro h
    simp only [IncState.forceRedraw]
    rw [if_neg (by simp [h])]
  · intro h
    simp only [IncState.forceRedraw]
    rw [if_pos (by simpa using h)]
  · intro x hx
    have hdl : s.previousOutput.dropLast ++ ['\n'] = s.previousOutput := by
      rw [hx, List.dropLast_concat]
    refine ⟨hdl, ?_⟩
    apply render_writes_ne_nil
    rw [hdl]
    simp [hx]

/-- C8 witness: `forceRedraw` on a concrete short-mode state holding the
output `"a\n"`. -/
theorem C8_witness :
    (let s : IncState :=
      { previousLines := splitNl ("a\n".data), previousOutput := "a\n".data,
        hasHiddenCursor := true, isInTallMode := false, wantsTallMode := false }
     (s.previousOutput ≠ []) ∧
     (s.forceRedraw false
        = ((IncState.render false { s with previousOutput := [], previousLines := [] }
              s.previousOutput.dropLast).1,
           [[Token.clearTerminal]]
             ++ (IncState.render false { s with previousOutput := [], previousLines := [] }
                  s.previousOutput.dropLast).2)) ∧
     (s.previousOutput.dropLast ++ ['\n'] = s.previousOutput ∧
      (IncState.render false { s with previousOutput := [], previousLines := [] }
          s.previousOutput.dropLast).2 ≠ [])) := by
  refine ⟨by decide, ?_, ?_⟩
  · exact (C8_forceRedraw_rerenders false _).2.1 (by decide)
  · exact (C8_forceRedraw_rerenders false _).2.2 ("a".data) (by decide)

theorem clearCount_append (a b : List Write) :
    clearCount (a ++ b) = clearCount a + clearCount b := by
  simp [clearCount, List.countP_append]

theorem clearCount_pair_clear_text (o : Str) :
    clearCount [[Token.clearTerminal], [Token.text o]] = 1 := rfl

theorem clearCount_textWrites (g : Nat → Str) (l : List Nat) :
    clearCount (l.map fun i => [Token.text (g i)]) = 0 := by
  induction l with
  | nil => rfl
  | cons a l ih =>
    rw [List.map_cons, ← List.singleton_append, clearCount_append, ih]
    rfl

/-- C2: a mode transition (short to tall when tall is wanted but not
active, or tall to short when short is wanted but tall is active) clears
the whole terminal exactly once and then writes the candidate exactly, with
no diffing: tall-to-short emits the clear followed by the full candidate in
one text write, and short-to-tall emits the clear followed by every
candidate line, the last one without its trailing newline, flipping
`isInTallMode` accordingly. -/
theorem C2_transition_clears_once (sc : Bool) (s : IncState) (x : Str)
    (hne : x ++ ['\n'] ≠ s.previousOutput) :
    (s.isInTallMode = true → s.wantsTallMode = false →
      (IncState.render sc s x).2 = [[Token.clearTerminal], [Token.text (x ++ ['\n'])]] ∧
      clearCount (IncState.render sc s x).2 = 1 ∧
      writtenText (IncState.render sc s x).2 = x ++ ['\n'] ∧
      (IncState.render sc s x).1.isInTallMode = false) ∧
    (s.isInTallMode = false → s.wantsTallMode = true →
      (IncState.render sc s x).2
        = [[Token.clearTerminal]]
          ++ ((List.range ((splitNl (x ++ ['\n'])).length - 1 - 1)).map
               fun i => [Token.text ((splitNl (x ++ ['\n'])).getD i [] ++ ['\n'])])
          ++ [[Token.text ((splitNl (x ++ ['\n'])).getD ((splitNl (x ++ ['\n'])).length - 1 - 1) [])]] ∧
      clearCount (IncState.render sc s x).2 = 1 ∧
      (IncState.render sc s x).2.head? = some [Token.clearTerminal] ∧
      writtenText (IncState.render sc s x).2 = x ∧
      (IncState.render sc s x).1.isInTallMode = true) := by
  have hvc : 0 < (splitNl (x ++ ['\n'])).length - 1 := by
    have := one_lt_length_splitNl_append_nl x
    omega
  constructor
  · intro htall hwants
    rw [render_tallToShort sc s x hne htall hwants]
    refine ⟨rfl, clearCount_pair_clear_text _, ?_, rfl⟩
    simp [writtenText, Token.textContent]
  · intro htall hwants
    rw [render_shortToTall sc s x hne htall hwants]
    simp only []
    rw [if_pos hvc]
    refine ⟨?_, ?_, ?_, ?_, ?_⟩
    · rfl
    · rw [clearCount_append, clearCount_append, clearCount_textWrites]
      rfl
    · simp
    · exact writes_clear_lines_text x
    · simp

/-- C2 witness: the concrete scenario — from the initial state,
`setTallMode(true)` then `render("l1\nl2\nl3")` emits one clear-terminal
then the writes `"l1\n"`, `"l2\n"`, `"l3"`, and flips `isInTallMode`. -/
theorem C2_witness :
    ("l1\nl2\nl3".data ++ ['\n'] ≠ (IncState.initial.setTallMode true).previousOutput) ∧
    (IncState.render false (IncState.initial.setTallMode true) ("l1\nl2\nl3".data)).2
      = [[Token.clearTerminal], [Token.text ("l1\n".data)], [Token.text ("l2\n".data)],
         [Token.text ("l3".data)]] ∧
    clearCount (IncState.render false (IncState.initial.setTallMode true) ("l1\nl2\nl3".data)).2 = 1 ∧
    writtenText (IncState.render false (IncState.initial.setTallMode true) ("l1\nl2\nl3".data)).2
      = "l1\nl2\nl3".data ∧
    (IncState.render false (IncState.initial.setTallMode true) ("l1\nl2\nl3".data)).1.isInTallMode
      = true := by
  have h := (C2_transition_clears_once false (IncState.initial.setTallMode true)
      ("l1\nl2\nl3".data) (by decide)).2 rfl rfl
  obtain ⟨h1, h2, h3, h4, h5⟩ := h
  refine ⟨by decide, ?_, h2, h4, h5⟩
  rw [h1]
  decide

theorem render_fst_isInTallMode_short (sc : Bool) (s : IncState) (x : Str)
    (htall : s.isInTallMode = false) (hwants : s.wantsTallMode = false) :
    (IncState.render sc s x).1.isInTallMode = false := by
  simp only [IncState.render]
  split_ifs with h1 h2 h3 h4 h5 <;> simp_all [tallStep]

theorem append_nl_injective {A B : Str} (h : B ++ ['\n'] = A ++ ['\n']) : B = A := by
  have := congrArg List.dropLast h
  simpa using this

/-- C3: in short mode, when `render(A)` is followed by `render(B)` with
`B ≠ A`, `B` not the empty snapshot (whose candidate is the single blank
line), the second render emits one single buffered write, and every visible
line index whose content is unchanged between `A` and `B` contributes the
move-to-next-line primitive to that buffer — not an erase-and-rewrite of
that line. -/
theorem C3_short_skips_unchanged_lines (sc : Bool) (s : IncState) (A B : Str)
    (hwf : s.wf) (htall : s.isInTallMode = false) (hwants : s.wantsTallMode = false)
    (hAB : B ≠ A) (hB : B ≠ []) :
    (IncState.render sc (IncState.render sc s A).1 B).2
      = [(if (splitNl (B ++ ['\n'])).length < (IncState.render sc s A).1.previousLines.length then
            [Token.eraseLines ((IncState.render sc s A).1.previousLines.length
                - (splitNl (B ++ ['\n'])).length + 1),
             Token.cursorUp ((((splitNl (B ++ ['\n'])).length - 1 : Nat) : Int))]
          else [Token.cursorUp (((IncState.render sc s A).1.previousLines.length : Int) - 1)])
         ++ ((List.range ((splitNl (B ++ ['\n'])).length - 1)).map
              (shortLineChunk (IncState.render sc s A).1.previousLines (splitNl (B ++ ['\n'])))).flatten] ∧
    (IncState.render sc s A).1.previousLines = splitNl (A ++ ['\n']) ∧
    (∀ i, i < (splitNl (B ++ ['\n'])).length - 1 →
      (splitNl (B ++ ['\n'])).get? i = (splitNl (A ++ ['\n'])).get? i →
      shortLineChunk (IncState.render sc s A).1.previousLines (splitNl (B ++ ['\n'])) i
          = [Token.cursorNextLine] ∧
      Token.eraseLine ∉ shortLineChunk (IncState.render sc s A).1.previousLines
          (splitNl (B ++ ['\n'])) i) := by
  have hsl : (IncState.render sc s A).1.previousLines = splitNl (A ++ ['\n']) := by
    by_cases hne : A ++ ['\n'] = s.previousOutput
    · rw [render_noop sc s A hne, hideCursor_previousLines]
      rcases hwf with ⟨h1, h2⟩ | ⟨_, h2⟩
      · exact absurd h1 (hne ▸ append_singleton_ne_nil)
      · rw [h2, ← hne]
    · exact render_fst_previousLines sc s A hne
  have htall1 : (IncState.render sc s A).1.isInTallMode = false :=
    render_fst_isInTallMode_short sc s A htall hwants
  have hwants1 : (IncState.render sc s A).1.wantsTallMode = false := by
    rw [render_fst_wantsTallMode]; exact hwants
  have hpo1 : (IncState.render sc s A).1.previousOutput = A ++ ['\n'] :=
    render_fst_previousOutput sc s A
  have hne2 : B ++ ['\n'] ≠ (IncState.render sc s A).1.previousOutput := by
    rw [hpo1]
    intro h
    exact hAB (append_nl_injective h)
  have hprev1 : (IncState.render sc s A).1.previousOutput ≠ [] := by
    rw [hpo1]; exact append_singleton_ne_nil
  refine ⟨?_, hsl, ?_⟩
  · rw [render_shortSteady sc _ B hne2 htall1 hwants1 hB hprev1]
  · intro i hi heq
    have hchunk : shortLineChunk (IncState.render sc s A).1.previousLines
        (splitNl (B ++ ['\n'])) i = [Token.cursorNextLine] := by
      unfold shortLineChunk
      rw [if_pos]
      rw [hsl, heq]
    refine ⟨hchunk, ?_⟩
    rw [hchunk]
    simp

/-- C3 witness: the spec's concrete short-mode scenario
`render("a\nb\nc")` then `render("a\nb\nd")` — the two unchanged line
indices contribute the move-to-next-line primitive. -/
theorem C3_witness :
    IncState.initial.wf ∧
    ("a\nb\nd".data ≠ ("a\nb\nc".data : Str)) ∧ ("a\nb\nd".data ≠ ([] : Str)) ∧
    shortLineChunk (IncState.render false IncState.initial ("a\nb\nc".data)).1.previousLines
        (splitNl ("a\nb\nd".data ++ ['\n'])) 0 = [Token.cursorNextLine] ∧
    shortLineChunk (IncState.render false IncState.initial ("a\nb\nc".data)).1.previousLines
        (splitNl ("a\nb\nd".data ++ ['\n'])) 1 = [Token.cursorNextLine] := by
  have h := C3_short_skips_unchanged_lines false IncState.initial ("a\nb\nc".data)
      ("a\nb\nd".data) (Or.inl ⟨rfl, rfl⟩) rfl rfl (by decide) (by decide)
  refine ⟨Or.inl ⟨rfl, rfl⟩, by decide, by decide, ?_, ?_⟩
  · exact (h.2.2 0 (by decide) (by decide)).1
  · exact (h.2.2 1 (by decide) (by decide)).1



theorem touchedRows_append (ts₁ ts₂ : List Token) :
    ∀ r, touchedRows r (ts₁ ++ ts₂)
      = touchedRows r ts₁ ++ touchedRows (rowAfter r ts₁) ts₂ := by
  induction ts₁ with
  | nil => intro r; simp [touchedRows, rowAfter]
  | cons t ts ih =>
    intro r
    cases t with
    | eraseLines n =>
      simp only [List.cons_append, touchedRows, rowAfter, List.append_eq, ih,
        List.append_assoc]
      split <;> simp [ih]
    | text u =>
      simp only [List.cons_append, touchedRows, rowAfter, List.append_eq, ih,
        List.append_assoc]
    | eraseLine =>
      simp only [List.cons_append, touchedRows, rowAfter, List.append_eq, ih,
        List.append_assoc]
    | cursorUp n =>
      simp only [List.cons_append, touchedRows, rowAfter, List.append_eq, ih,
        List.append_assoc]
    | cursorTo n =>
      simp only [List.cons_append, touchedRows, rowAfter, List.append_eq, ih,
        List.append_assoc]
    | cursorNextLine =>
      simp only [List.cons_append, touchedRows, rowAfter, List.append_eq, ih,
        List.append_assoc]
    | clearTerminal =>
      simp only [List.cons_append, touchedRows, rowAfter, List.append_eq, ih,
        List.append_assoc]

theorem splitNl_singleton_of_no_nl (u : Str) (h : '\n' ∉ u) : splitNl u = [u] := by
  induction u with
  | nil => rfl
  | cons c cs ih =>
    have hc : c ≠ '\n' := fun hc => h (by simp [hc])
    have hcs : '\n' ∉ cs := fun hm => h (List.mem_cons_of_mem _ hm)
    simp only [splitNl, ih hcs]
    rw [if_neg hc]

theorem touchedRows_text_no_nl (u : Str) (h : '\n' ∉ u) (r : Int) (ts : List Token) :
    touchedRows r (Token.text u :: ts)
      = (if u = [] then [] else [r]) ++ touchedRows r ts ∧
    rowAfter r (Token.text u :: ts) = rowAfter r ts := by
  constructor
  · simp only [touchedRows, splitNl_singleton_of_no_nl u h]
    split <;> rename_i hu
    · simp [List.range, List.range.loop, hu]
    · simp [List.range, List.range.loop, hu]
  · simp only [rowAfter, splitNl_singleton_of_no_nl u h]
    norm_num

theorem touchedRows_text_line (u : Str) (h : '\n' ∉ u) (r : Int) (ts : List Token) :
    touchedRows r (Token.text (u ++ ['\n']) :: ts)
      = (if u = [] then [] else [r]) ++ touchedRows (r + 1) ts ∧
    rowAfter r (Token.text (u ++ ['\n']) :: ts) = rowAfter (r + 1) ts := by
  have hsp : splitNl (u ++ ['\n']) = [u, []] := by
    rw [splitNl_append_nl, splitNl_singleton_of_no_nl u h]
    rfl
  constructor
  · simp only [touchedRows, hsp]
    split <;> rename_i hu
    · simp [List.range, List.range.loop, hu]
    · simp [List.range, List.range.loop, hu]
  · simp only [rowAfter, hsp]
    norm_num

theorem touchedRows_chunks_lb (f : Nat → Str) (hf : ∀ i, '\n' ∉ f i) (lb : Int) :
    ∀ (k a : Nat) (r : Int) (ts : List Token), lb ≤ r →
      (∀ ρ ∈ touchedRows (r + k) ts, lb ≤ ρ) →
      ∀ ρ ∈ touchedRows r ((((List.range' a k).map fun i =>
          [Token.eraseLine, Token.text (f i ++ ['\n'])]).flatten) ++ ts), lb ≤ ρ := by
  intro k
  induction k with
  | zero =>
    intro a r ts hr hts ρ hρ
    simp only [List.range', List.map_nil, List.flatten_nil, List.nil_append] at hρ
    exact hts ρ (by simpa using hρ)
  | succ n ih =>
    intro a r ts hr hts ρ hρ
    rw [List.range'_succ, List.map_cons, List.flatten_cons, List.append_assoc] at hρ
    set R : List Token := (((List.range' (a + 1) n).map fun i =>
        [Token.eraseLine, Token.text (f i ++ ['\n'])]).flatten) ++ ts with hR
    have e1 : ([Token.eraseLine, Token.text (f a ++ ['\n'])] ++ R)
        = Token.eraseLine :: Token.text (f a ++ ['\n']) :: R := rfl
    rw [e1] at hρ
    have e2 : touchedRows r (Token.eraseLine :: Token.text (f a ++ ['\n']) :: R)
        = r :: touchedRows r (Token.text (f a ++ ['\n']) :: R) := rfl
    rw [e2, (touchedRows_text_line (f a) (hf a) r R).1] at hρ
    rcases List.mem_cons.mp hρ with h1 | h2
    · omega
    rcases List.mem_append.mp h2 with h3 | h4
    · split at h3
      · simp at h3
      · have : ρ = r := by simpa using h3
        omega
    · rw [hR] at h4
      refine ih (a + 1) (r + 1) ts (by omega) ?_ ρ h4
      intro σ hσ
      apply hts
      have hcast : r + 1 + (n : Int) = r + ((n : Nat) + 1 : Nat) := by push_cast; ring
      rwa [hcast] at hσ

theorem touchedRows_blankPairs_lb (lb : Int) :
    ∀ (k : Nat) (r : Int) (ts : List Token), lb ≤ r →
      (∀ ρ ∈ touchedRows (r + k) ts, lb ≤ ρ) →
      ∀ ρ ∈ touchedRows r ((List.replicate k
          ([Token.text ['\n'], Token.eraseLine] : Write)).flatten ++ ts), lb ≤ ρ := by
  intro k
  induction k with
  | zero =>
    intro r ts hr hts ρ hρ
    simp only [List.replicate, List.flatten_nil, List.nil_append] at hρ
    exact hts ρ (by simpa using hρ)
  | succ n ih =>
    intro r ts hr hts ρ hρ
    rw [List.replicate_succ, List.flatten_cons, List.append_assoc] at hρ
    set R : List Token := (List.replicate n
        ([Token.text ['\n'], Token.eraseLine] : Write)).flatten ++ ts with hR
    have e1 : (([Token.text ['\n'], Token.eraseLine] : Write) ++ R)
        = Token.text ['\n'] :: Token.eraseLine :: R := rfl
    rw [e1] at hρ
    have hnl : ('\n' : Char) ∉ ([] : Str) := by simp
    have e2 := (touchedRows_text_line [] hnl r (Token.eraseLine :: R)).1
    rw [show (([] : Str) ++ ['\n']) = ['\n'] from rfl] at e2
    rw [e2, if_pos rfl, List.nil_append] at hρ
    have e3 : touchedRows (r + 1) (Token.eraseLine :: R)
        = (r + 1) :: touchedRows (r + 1) R := rfl
    rw [e3] at hρ
    rcases List.mem_cons.mp hρ with h1 | h2
    · omega
    · rw [hR] at h2
      refine ih (r + 1) ts (by omega) ?_ ρ h2
      intro σ hσ
      apply hts
      have hcast : r + 1 + (n : Int) = r + ((n : Nat) + 1 : Nat) := by push_cast; ring
      rwa [hcast] at hσ

theorem getD_no_nl (x : Str) (i : Nat) : '\n' ∉ (splitNl x).getD i [] := by
  by_cases hi : i < (splitNl x).length
  · have hmem : (splitNl x).getD i [] ∈ splitNl x := by
      rw [List.getD_eq_getElem _ _ hi]
      exact List.getElem_mem hi
    exact nl_not_mem_splitNl x _ hmem
  · rw [List.getD_eq_default _ _ (le_of_not_lt hi)]
    simp

theorem touchedRows_cursorUp (r n : Int) (ts : List Token) :
    touchedRows r (Token.cursorUp n :: ts) = touchedRows (r - n) ts := rfl

theorem touchedRows_cursorTo (r : Int) (n : Nat) (ts : List Token) :
    touchedRows r (Token.cursorTo n :: ts) = touchedRows r ts := rfl

theorem touchedRows_eraseLine (r : Int) (ts : List Token) :
    touchedRows r (Token.eraseLine :: ts) = r :: touchedRows r ts := rfl

theorem touchedRows_nil (r : Int) : touchedRows r [] = [] := rfl

theorem range_map_const {α : Type} (k : Nat) (w : α) :
    (List.range k).map (fun _ => w) = List.replicate k w := by
  induction k with
  | zero => rfl
  | succ n ih =>
    rw [List.range_succ, List.map_append, ih, List.map_cons, List.map_nil,
      List.replicate_succ']

/-- C1: in the tall-mode steady state with non-empty previous output, on a
differing candidate the renderer computes the divergence index as the first
index below `min(prevVisibleCount, visibleCount) - 1` where the previous and
next lines differ (or that bound when all compared lines agree), emits a
cursor-up of `(prevVisibleCount - 1) - divergenceIndex` rows only when that
quantity is positive followed by a move to column 0, rewrites exactly the
lines from the divergence index through the last visible line (the last one
erased and written without a trailing newline, plus blanking of excess rows
below when the content shrank), and no write of the call lands on a
terminal row above the divergence index. -/
theorem C1_tall_steady_diff (sc : Bool) (s : IncState) (x p : Str)
    (nextLines : List Str) (vc d : Nat)
    (hnext : nextLines = splitNl (x ++ ['\n']))
    (hvc : vc = nextLines.length - 1)
    (htall : s.isInTallMode = true) (hwants : s.wantsTallMode = true)
    (hprev : s.previousOutput = p ++ ['\n'])
    (hlines : s.previousLines = splitNl s.previousOutput)
    (hne : x ++ ['\n'] ≠ s.previousOutput)
    (hd : d = findDiv s.previousLines nextLines
        (min (((s.previousLines.length : Int) - 1) - 1) ((vc : Int) - 1)).toNat 0) :
    (d ≤ min (s.previousLines.length - 1) vc - 1 ∧
     (∀ j, j < d → nextLines.get? j = s.previousLines.get? j) ∧
     (d = min (s.previousLines.length - 1) vc - 1 ∨
      nextLines.get? d ≠ s.previousLines.get? d)) ∧
    ((IncState.render sc s x).2
      = (if ((s.previousLines.length : Int) - 1) - 1 - (d : Int) > 0
           then [[Token.cursorUp (((s.previousLines.length : Int) - 1) - 1 - (d : Int))]] else [])
        ++ [[Token.cursorTo 0]]
        ++ ((List.range' d (vc - 1 - d)).map fun i =>
              [Token.eraseLine, Token.text (nextLines.getD i [] ++ ['\n'])])
        ++ (if vc > 0 then [[Token.eraseLine, Token.text (nextLines.getD (vc - 1) [])]] else [])
        ++ (if ((s.previousLines.length : Int) - 1) > (vc : Int) then
              ((List.range (((s.previousLines.length : Int) - 1 - (vc : Int)).toNat)).map fun _ =>
                ([Token.text ['\n'], Token.eraseLine] : Write))
              ++ [[Token.cursorUp ((s.previousLines.length : Int) - 1 - (vc : Int))], [Token.cursorTo 0]]
              ++ (if vc > 0 then [[Token.text (nextLines.getD (vc - 1) [])]] else [])
            else [])) ∧
    (∀ ρ ∈ touchedRows ((s.previousLines.length : Int) - 1 - 1)
        (IncState.render sc s x).2.flatten, (d : Int) ≤ ρ) := by
  have hlen2 : 2 ≤ s.previousLines.length := by
    rw [hlines, hprev, splitNl_append_nl]
    have := length_splitNl_pos p
    simp only [List.length_append, List.length_cons, List.length_nil]
    omega
  have hvcg : 1 ≤ vc := by
    rw [hvc, hnext]
    have := one_lt_length_splitNl_append_nl x
    omega
  have hbord : (min (((s.previousLines.length : Int) - 1) - 1) ((vc : Int) - 1)).toNat
      = min (s.previousLines.length - 1) vc - 1 := by
    simp only [min_def]
    split_ifs <;> omega
  have hdle : d ≤ min (s.previousLines.length - 1) vc - 1 := by
    have := findDiv_le s.previousLines nextLines
      ((min (((s.previousLines.length : Int) - 1) - 1) ((vc : Int) - 1)).toNat) 0
    omega
  refine ⟨⟨hdle, ?_, ?_⟩, ?_, ?_⟩
  · intro j hj
    rw [hd] at hj
    exact findDiv_eq_before s.previousLines nextLines _ 0 j (Nat.zero_le j) hj
  · rcases findDiv_stop s.previousLines nextLines
        ((min (((s.previousLines.length : Int) - 1) - 1) ((vc : Int) - 1)).toNat) 0 with h | h
    · left; omega
    · right; rw [hd]; exact h
  · subst hd hvc hnext
    rw [render_tallSteady sc s x hne htall hwants]
    simp only [tallStep, hideCursor_previousLines]
  · subst hd hvc hnext
    rw [render_tallSteady sc s x hne htall hwants]
    simp only [tallStep, hideCursor_previousLines]
    set len := s.previousLines.length with hlenDef
    set N := splitNl (x ++ ['\n']) with hN
    set D := findDiv s.previousLines N
        (min (((len : Int) - 1) - 1) (((N.length - 1 : Nat) : Int) - 1)).toNat 0 with hD
    set vcN := N.length - 1 with hvcN
    have hDle2 : D ≤ len - 2 := by omega
    have hDvc : D ≤ vcN - 1 := by omega
    intro ρ hρ
    rw [if_pos (by omega : vcN > 0)] at hρ
    by_cases hshr : ((len : Int) - 1) > ((vcN : Nat) : Int)
    · rw [if_pos hshr] at hρ
      simp only [List.flatten_append, List.flatten_cons, List.flatten_nil,
        List.singleton_append, List.cons_append, List.nil_append, List.append_assoc,
        List.append_nil] at hρ
      rw [if_pos (by omega : vcN > 0)] at hρ
      rw [range_map_const] at hρ
      simp only [List.flatten_cons, List.flatten_nil, List.append_nil] at hρ
      have hfN : ∀ i, '\n' ∉ N.getD i [] := fun i => by rw [hN]; exact getD_no_nl (x ++ ['\n']) i
      have hlast : '\n' ∉ N.getD (vcN - 1) [] := hfN _
      have mainShrink : ∀ σ ∈ touchedRows (D : Int)
          (((List.map (fun i => [Token.eraseLine, Token.text (N.getD i [] ++ ['\n'])])
              (List.range' D (vcN - 1 - D))).flatten) ++
            (Token.eraseLine :: Token.text (N.getD (vcN - 1) []) ::
              ((List.replicate (((len : Int) - 1 - (vcN : Int)).toNat)
                  ([Token.text ['\n'], Token.eraseLine] : Write)).flatten ++
                Token.cursorUp ((len : Int) - 1 - (vcN : Int)) ::
                  Token.cursorTo 0 :: [Token.text (N.getD (vcN - 1) [])]))), (D : Int) ≤ σ := by
        refine touchedRows_chunks_lb (fun i => N.getD i []) hfN (D : Int)
          (vcN - 1 - D) D (D : Int) _ le_rfl ?_
        intro σ hσ
        rw [(by omega : ((D : Int) + ((vcN - 1 - D : Nat) : Int)) = ((vcN - 1 : Nat) : Int))] at hσ
        rw [touchedRows_eraseLine] at hσ
        rcases List.mem_cons.mp hσ with h1 | h2
        · omega
        rw [(touchedRows_text_no_nl _ hlast _ _).1] at h2
        rcases List.mem_append.mp h2 with h3 | h4
        · split at h3
          · simp at h3
          · have : σ = ((vcN - 1 : Nat) : Int) := by simpa using h3
            omega
        · refine touchedRows_blankPairs_lb (D : Int) _ _ _ (by omega) ?_ σ h4
          intro τ hτ
          rw [touchedRows_cursorUp, touchedRows_cursorTo] at hτ
          rw [(by omega : ((vcN - 1 : Nat) : Int) + ((((len : Int) - 1 - (vcN : Int)).toNat : Nat) : Int)
              - ((len : Int) - 1 - (vcN : Int)) = ((vcN - 1 : Nat) : Int))] at hτ
          rw [(touchedRows_text_no_nl _ hlast _ _).1] at hτ
          rcases List.mem_append.mp hτ with h5 | h6
          · split at h5
            · simp at h5
            · have : τ = ((vcN - 1 : Nat) : Int) := by simpa using h5
              omega
          · rw [touchedRows_nil] at h6
            simp at h6
      by_cases hcu : ((len : Int) - 1 - 1 - (D : Int) > 0)
      · rw [if_pos hcu] at hρ
        simp only [List.flatten_cons, List.flatten_nil, List.append_nil, List.cons_append,
          List.nil_append] at hρ
        rw [touchedRows_cursorUp, touchedRows_cursorTo] at hρ
        rw [(by omega : ((len : Int) - 1 - 1) - ((len : Int) - 1 - 1 - (D : Int)) = (D : Int))] at hρ
        exact mainShrink ρ hρ
      · rw [if_neg hcu] at hρ
        simp only [List.flatten_nil, List.nil_append] at hρ
        rw [touchedRows_cursorTo] at hρ
        rw [(by omega : ((len : Int) - 1 - 1) = (D : Int))] at hρ
        exact mainShrink ρ hρ
    · rw [if_neg hshr] at hρ
      simp only [List.flatten_append, List.flatten_cons, List.flatten_nil,
        List.singleton_append, List.cons_append, List.nil_append, List.append_assoc,
        List.append_nil] at hρ
      have hfN : ∀ i, '\n' ∉ N.getD i [] := fun i => by rw [hN]; exact getD_no_nl (x ++ ['\n']) i
      have hlast : '\n' ∉ N.getD (vcN - 1) [] := hfN _
      have mainPlain : ∀ σ ∈ touchedRows (D : Int)
          (((List.map (fun i => [Token.eraseLine, Token.text (N.getD i [] ++ ['\n'])])
              (List.range' D (vcN - 1 - D))).flatten) ++
            [Token.eraseLine, Token.text (N.getD (vcN - 1) [])]), (D : Int) ≤ σ := by
        refine touchedRows_chunks_lb (fun i => N.getD i []) hfN (D : Int)
          (vcN - 1 - D) D (D : Int) _ le_rfl ?_
        intro σ hσ
        rw [(by omega : ((D : Int) + ((vcN - 1 - D : Nat) : Int)) = ((vcN - 1 : Nat) : Int))] at hσ
        rw [show ([Token.eraseLine, Token.text (N.getD (vcN - 1) [])] : List Token)
            = Token.eraseLine :: Token.text (N.getD (vcN - 1) []) :: [] from rfl] at hσ
        rw [touchedRows_eraseLine] at hσ
        rcases List.mem_cons.mp hσ with h1 | h2
        · omega
        rw [(touchedRows_text_no_nl _ hlast _ _).1] at h2
        rcases List.mem_append.mp h2 with h3 | h4
        · split at h3
          · simp at h3
          · have : σ = ((vcN - 1 : Nat) : Int) := by simpa using h3
            omega
        · rw [touchedRows_nil] at h4
          simp at h4
      by_cases hcu : ((len : Int) - 1 - 1 - (D : Int) > 0)
      · rw [if_pos hcu] at hρ
        simp only [List.flatten_cons, List.flatten_nil, List.append_nil, List.cons_append,
          List.nil_append] at hρ
        rw [touchedRows_cursorUp, touchedRows_cursorTo] at hρ
        rw [(by omega : ((len : Int) - 1 - 1) - ((len : Int) - 1 - 1 - (D : Int)) = (D : Int))] at hρ
        exact mainPlain ρ hρ
      · rw [if_neg hcu] at hρ
        simp only [List.flatten_nil, List.nil_append] at hρ
        rw [touchedRows_cursorTo] at hρ
        rw [(by omega : ((len : Int) - 1 - 1) = (D : Int))] at hρ
        exact mainPlain ρ hρ



/-- C1 witness: appending one line in tall mode — the divergence index is 2,
no cursor-up is emitted, only lines 2 and 3 are rewritten (the last without
a trailing newline), and no write lands on a row above index 2. -/
theorem C1_witness :
    ("l1\nl2\nl3\nl4".data ++ ['\n'] ≠ tallPrevState.previousOutput) ∧
    ((2 : Nat) = findDiv tallPrevState.previousLines (splitNl ("l1\nl2\nl3\nl4".data ++ ['\n']))
      (min (((tallPrevState.previousLines.length : Int) - 1) - 1) (((4 : Nat) : Int) - 1)).toNat 0) ∧
    (IncState.render false tallPrevState ("l1\nl2\nl3\nl4".data)).2
      = [[Token.cursorTo 0], [Token.eraseLine, Token.text ("l3\n".data)],
         [Token.eraseLine, Token.text ("l4".data)]] ∧
    (∀ ρ ∈ touchedRows ((tallPrevState.previousLines.length : Int) - 1 - 1)
        (IncState.render false tallPrevState ("l1\nl2\nl3\nl4".data)).2.flatten,
      (((2 : Nat) : Int)) ≤ ρ) := by
  have h := C1_tall_steady_diff false tallPrevState ("l1\nl2\nl3\nl4".data) ("l1\nl2\nl3".data)
      (splitNl ("l1\nl2\nl3\nl4".data ++ ['\n'])) 4 2 rfl (by decide) rfl rfl (by decide)
      (by decide) (by decide) (by decide)
  refine ⟨by decide, by decide, ?_, h.2.2⟩
  rw [h.2.1]
  decide
